import Mathlib

/-
A verification development for the jobman single-host job supervisor.
Python functions from the repository are shallowly embedded as executable
Lean definitions: Python `str` values are modelled as `List Char` (or Lean
`String` converted through `.data`), machine integers as `Int`/`Nat`
(jobman never relies on overflow), `datetime`/`timedelta` values as
integer seconds, floats that only ever hold exact arithmetic as `Rat`,
fallible code as `Except`, and the sqlite store as explicit lists of
records.  Each embedded definition is annotated with the source file and
function it is translated from.
-/

namespace Jobman

/-! ## Character-list string primitives

Python string operations used by `jobman/cli.py` and `jobman/models.py`,
modelled on `List Char`. -/

/-- Decimal digits of `n`, as Python's `str(int)` produces for
non-negative values. -/
def natChars (n : Nat) : List Char :=
  Nat.toDigits 10 n

/-- Value of a non-empty digit string, as Python's `int(s)` for the digit
runs captured by the regex. -/
def charsToNat (l : List Char) : Nat :=
  l.foldl (fun a c => a * 10 + (c.toNat - 48)) 0

/-- Fuelled scanner behind `findallUnit`.  Every step either stops or
recurses on a strictly shorter list, so fuel equal to the input length is
always sufficient; the fuel only makes the recursion structural. -/
def findallUnitGo (u : Char) : Nat → List Char → List (List Char)
  | 0, _ => []
  | _, [] => []
  | fuel + 1, x :: xs =>
    if x.isDigit then
      match xs.dropWhile Char.isDigit with
      | [] => []
      | y :: ys =>
        if y = u then (x :: xs.takeWhile Char.isDigit) :: findallUnitGo u fuel ys
        else findallUnitGo u fuel (y :: ys)
    else findallUnitGo u fuel xs

/-- All matches of the Python regex `(\d+)u` over a string, left to right:
the maximal digit runs that are immediately followed by the character `u`.
Backtracking inside a maximal digit run can never produce a match because
the unit characters are not digits, so this scan is equivalent to
`re.findall(f"(\d+){unit}", s)` as called in `jobman/cli.py`. -/
def findallUnit (u : Char) (l : List Char) : List (List Char) :=
  findallUnitGo u l.length l

/-- Fuelled worker behind `replaceAll`; fuel equal to the input length is
always sufficient. -/
def replaceAllGo (pat : List Char) : Nat → List Char → List Char
  | 0, s => s
  | _, [] => []
  | fuel + 1, x :: xs =>
    match pat with
    | [] => x :: xs
    | p :: ps =>
      if (p :: ps).isPrefixOf (x :: xs) then
        replaceAllGo (p :: ps) fuel (xs.drop ps.length)
      else x :: replaceAllGo (p :: ps) fuel xs

/-- Python's `s.replace(pat, "")` on character lists: delete every
non-overlapping occurrence of `pat`, scanning left to right.  (The
supervisor only ever replaces with the empty string.) -/
def replaceAll (pat l : List Char) : List Char :=
  replaceAllGo pat l.length l

/-! ## `jobman/cli.py`: `strptimedelta`

Durations are measured in whole seconds (`timedelta` values built from
integer unit counts are exact). -/

/-- Error kinds raised by `strptimedelta` (all as `JobmanError` with
`exit_code=os.EX_USAGE`). -/
inductive TdErrKind : Type
  | multipleValues (unit : Char)
  | uninterpretable
  deriving DecidableEq, Repr

/-- A raised `JobmanError`: kind plus the `exit_code` passed at the raise
site. -/
structure JError : Type where
  kind : TdErrKind
  exitCode : Nat
  deriving DecidableEq, Repr

/-- `os.EX_USAGE`. -/
def EX_USAGE : Nat := 64

/-- One pass of the unit loop in `strptimedelta`: returns the value parsed
for unit `u` together with the working string after
`td_str_work.replace(f"{v}{unit}", "")`.  (The `int(...)` conversion in
the source cannot fail because the regex only captures digit runs.) -/
def parseUnit (u : Char) (work : List Char) : Except JError (Nat × List Char) :=
  match findallUnit u work with
  | [] => .ok (0, work)
  | [v] =>
    let n := charsToNat v
    .ok (n, replaceAll (natChars n ++ [u]) work)
  | _ => .error ⟨.multipleValues u, EX_USAGE⟩

/-- Translation of `strptimedelta` (`jobman/cli.py`): parse a
`NwNdNhNmNs` duration string into total seconds; a repeated unit or
leftover characters raise a usage error. -/
def strptimedelta (s : String) : Except JError Nat := do
  let (w, r1) ← parseUnit 'w' s.data
  let (d, r2) ← parseUnit 'd' r1
  let (h, r3) ← parseUnit 'h' r2
  let (m, r4) ← parseUnit 'm' r3
  let (sec, r5) ← parseUnit 's' r4
  if r5.any (fun c => !c.isWhitespace) then
    .error ⟨.uninterpretable, EX_USAGE⟩
  else
    .ok (w * 604800 + d * 86400 + h * 3600 + m * 60 + sec)

/-! ## `jobman/models.py`: `TextTupleField` and variants

A list-typed field serializes a Python list/tuple into a single text
column joined on the delimiter `|`; the integer and path variants reuse
`TextTupleField.db_value` and only change how `python_value` maps the
split pieces back.  The element-to-string conversion (`str(i)`) and the
string-to-element conversion of the variants are passed in as `toStr` and
`fromStr`. -/

namespace TextTupleField

/-- The internal field delimiter `TextTupleField.delim`. -/
def delim : Char := '|'

/-- Write error raised by `db_value`. -/
inductive FieldError : Type
  | valueError
  deriving DecidableEq, Repr

/-- Python `"|".join(pieces)` on character lists. -/
def joinDelim : List (List Char) → List Char
  | [] => []
  | [x] => x
  | x :: y :: rest => x ++ delim :: joinDelim (y :: rest)

/-- Python `s.split("|")` on character lists (always returns at least one
piece; splitting the empty string yields `[[]]`). -/
def splitDelim : List Char → List (List Char)
  | [] => [[]]
  | x :: xs =>
    if x = delim then [] :: splitDelim xs
    else
      match splitDelim xs with
      | [] => [[x]]
      | r :: rs => (x :: r) :: rs

/-- Translation of `TextTupleField.db_value` (`jobman/models.py`):
`None` and the empty list both store SQL NULL; an element whose string
form contains the delimiter raises `ValueError`; otherwise the stringified
elements are joined on `|`.  (The `TypeError` branch for non-list values
is unrepresentable in this typed embedding.) -/
def db_value {α : Type} (toStr : α → List Char) :
    Option (List α) → Except FieldError (Option (List Char))
  | none => .ok none
  | some l =>
    if l.isEmpty then .ok none
    else if l.any (fun x => (toStr x).contains delim) then .error .valueError
    else .ok (some (joinDelim (l.map toStr)))

/-- Translation of `python_value` of `TextTupleField` and its variants
(`jobman/models.py`): NULL reads back as `None`; otherwise the column is
split on `|` and each piece converted by the variant's element parser. -/
def python_value {α : Type} (fromStr : List Char → α) :
    Option (List Char) → Option (List α)
  | none => none
  | some s => some ((splitDelim s).map fromStr)

theorem splitDelim_ne_nil (l : List Char) : splitDelim l ≠ [] := by
  induction l with
  | nil => simp [splitDelim]
  | cons x xs ih =>
    by_cases h : x = delim
    · simp [splitDelim, h]
    · simp only [splitDelim, if_neg h]
      match hs : splitDelim xs with
      | [] => simp
      | r :: rs => simp

theorem splitDelim_no_delim (x : List Char) (hx : x.contains delim = false) :
    splitDelim x = [x] := by
  induction x with
  | nil => rfl
  | cons c cs ih =>
    simp only [List.contains_cons, Bool.or_eq_false_iff] at hx
    have hc : ¬ c = delim := by
      intro h
      rw [h] at hx
      simp at hx
    simp only [splitDelim, if_neg hc, ih hx.2]

theorem splitDelim_append_delim (x t : List Char) (hx : x.contains delim = false) :
    splitDelim (x ++ delim :: t) = x :: splitDelim t := by
  induction x with
  | nil => simp [splitDelim]
  | cons c cs ih =>
    simp only [List.contains_cons, Bool.or_eq_false_iff] at hx
    have hc : ¬ c = delim := by
      intro h
      rw [h] at hx
      simp at hx
    simp only [List.cons_append, splitDelim, if_neg hc, List.append_eq]
    rw [ih hx.2]

/-- Splitting undoes joining for non-empty lists of delimiter-free
pieces. -/
theorem splitDelim_joinDelim (l : List (List Char)) (hne : l ≠ [])
    (hfree : ∀ x ∈ l, x.contains delim = false) :
    splitDelim (joinDelim l) = l := by
  induction l with
  | nil => exact absurd rfl hne
  | cons x rest ih =>
    match rest with
    | [] =>
      exact splitDelim_no_delim x (hfree x (by simp))
    | y :: rs =>
      have hx := hfree x (by simp)
      rw [joinDelim, splitDelim_append_delim x _ hx]
      rw [ih (by simp) (fun z hz => hfree z (by simp [hz]))]

end TextTupleField

/-- C5: the duration parser maps `"1w2d3h4m5s"` to the sum
1 week + 2 days + 3 hours + 4 minutes + 5 seconds, maps the empty string
to the zero duration, and rejects a repeated unit such as `"3h4h"` with a
`JobmanError` carrying exit code `os.EX_USAGE`. -/
theorem strptimedelta_roundtrip :
    strptimedelta "1w2d3h4m5s"
      = Except.ok (1 * 604800 + 2 * 86400 + 3 * 3600 + 4 * 60 + 5)
    ∧ strptimedelta "" = Except.ok 0
    ∧ strptimedelta "3h4h"
      = Except.error ⟨TdErrKind.multipleValues 'h', EX_USAGE⟩ := by
  refine ⟨rfl, rfl, rfl⟩

/-- C6: for a non-empty list whose elements' string forms are free of the
delimiter `|` and are faithfully parsed back by the variant's element
parser, `db_value` followed by `python_value` restores the list, elements
and order intact; and any list containing an element whose string form
contains `|` is rejected by `db_value` with a `ValueError`. -/
theorem textTupleField_roundtrip :
    (∀ (α : Type) (toStr : α → List Char) (fromStr : List Char → α) (l : List α),
      l ≠ [] →
      (∀ x ∈ l, fromStr (toStr x) = x) →
      (∀ x ∈ l, (toStr x).contains TextTupleField.delim = false) →
      TextTupleField.db_value toStr (some l)
        = Except.ok (some (TextTupleField.joinDelim (l.map toStr)))
      ∧ TextTupleField.python_value fromStr
          (some (TextTupleField.joinDelim (l.map toStr))) = some l)
    ∧ (∀ (α : Type) (toStr : α → List Char) (l : List α) (x : α),
      x ∈ l → (toStr x).contains TextTupleField.delim = true →
      TextTupleField.db_value toStr (some l)
        = Except.error TextTupleField.FieldError.valueError) := by
  constructor
  · intro α toStr fromStr l hne hinv hfree
    have hempty : l.isEmpty = false := by
      cases l with
      | nil => exact absurd rfl hne
      | cons a as => rfl
    have hfree' : ∀ x ∈ l, TextTupleField.delim ∉ toStr x := fun x hx => by
      simpa using hfree x hx
    constructor
    · simp [TextTupleField.db_value, hempty]
      exact hfree'
    · have hsplit := TextTupleField.splitDelim_joinDelim (l.map toStr)
        (by simpa using hne)
        (by
          intro y hy
          rcases List.mem_map.mp hy with ⟨x, hx, rfl⟩
          exact hfree x hx)
      simp only [TextTupleField.python_value, hsplit, List.map_map]
      congr 1
      calc l.map (fromStr ∘ toStr) = l.map id := by
            refine List.map_congr_left ?_
            intro x hx
            exact hinv x hx
        _ = l := List.map_id l
  · intro α toStr l x hx hdelim
    have hempty : l.isEmpty = false := by
      cases l with
      | nil => simp at hx
      | cons a as => rfl
    simp only [TextTupleField.db_value, hempty]
    simp
    exact ⟨x, hx, by simpa using hdelim⟩

/-- Witness for C6 at a concrete input: the round trip on the plain text
variant restores the two-element list. -/
theorem textTupleField_roundtrip_witness :
    TextTupleField.db_value (fun x : List Char => x) (some [['a'], ['b']])
      = Except.ok (some (TextTupleField.joinDelim ([['a'], ['b']].map fun x => x)))
    ∧ TextTupleField.python_value (fun x : List Char => x)
        (some (TextTupleField.joinDelim ([['a'], ['b']].map fun x => x)))
      = some [['a'], ['b']] :=
  textTupleField_roundtrip.1 (List Char) (fun x => x) (fun x => x)
    [['a'], ['b']] (by decide) (by decide) (by decide)

/-- C10: for every list-typed field, writing the empty list stores NULL
exactly as an unset value does, and reading NULL back yields `None`, not
the empty list — so the round trip only holds for non-empty lists and a
persisted `[]` is indistinguishable from a field never set. -/
theorem textTupleField_empty_list_is_null :
    (∀ (α : Type) (toStr : α → List Char),
      TextTupleField.db_value toStr (some ([] : List α)) = Except.ok none
      ∧ TextTupleField.db_value toStr (none : Option (List α)) = Except.ok none)
    ∧ (∀ (α : Type) (fromStr : List Char → α),
      TextTupleField.python_value fromStr none = (none : Option (List α))
      ∧ TextTupleField.python_value fromStr none ≠ some ([] : List α)) := by
  constructor
  · intro α toStr
    exact ⟨by simp [TextTupleField.db_value], rfl⟩
  · intro α fromStr
    exact ⟨rfl, by simp [TextTupleField.python_value]⟩

/-! ## `jobman/core/supervisor/run.py`: `get_delay_secs`

Float seconds are modelled as `Rat` (the function only multiplies, adds
and halves, all exact here).  `random.uniform(-max_jitter, max_jitter)`
is modelled by passing the sampled value in as `sampled_jitter`; the
sample always lies in the closed interval.  The loop in `run_job` only
calls this with `attempt != 0`, so `2 ** (attempt - 1)` in Python agrees
with `2 ^ (attempt - 1)` on `Nat` subtraction. -/

/-- Translation of `get_delay_secs` (`jobman/core/supervisor/run.py`). -/
def get_delay_secs (retry_delay_secs : ℚ) (attempt : Nat)
    (retry_expo_backoff retry_jitter : Bool) (sampled_jitter : ℚ) : ℚ :=
  let base_delay_secs : ℚ := retry_delay_secs
  let expo_factor : ℚ := if retry_expo_backoff then 2 ^ (attempt - 1) else 1
  let jitter_secs : ℚ := if retry_jitter then sampled_jitter else 0
  expo_factor * base_delay_secs + jitter_secs

/-- C4: for a retry attempt `n ≥ 1`, the computed sleep equals
`base * (2^(n-1) if expo else 1) + jitter` where the jitter sample lies in
`[-base/10, base/10]` when enabled and is `0` otherwise; the result is
always non-negative, so it coincides with its clamp at zero. -/
theorem get_delay_secs_formula (base j : ℚ) (n : Nat) (expo jf : Bool)
    (hb : 0 ≤ base) (hn : 1 ≤ n)
    (hj : if jf then -(base / 10) ≤ j ∧ j ≤ base / 10 else True) :
    get_delay_secs base n expo jf j
      = base * (if expo then 2 ^ (n - 1) else 1) + (if jf then j else 0)
    ∧ 0 ≤ get_delay_secs base n expo jf j
    ∧ get_delay_secs base n expo jf j
      = max 0 (base * (if expo then 2 ^ (n - 1) else 1) + (if jf then j else 0)) := by
  have hfactor : (1 : ℚ) ≤ (if expo then 2 ^ (n - 1) else 1) := by
    cases expo
    · simp
    · simp only [if_pos rfl]
      calc (1 : ℚ) = 1 ^ (n - 1) := (one_pow _).symm
        _ ≤ 2 ^ (n - 1) := by
            exact pow_le_pow_left₀ (by norm_num) (by norm_num) _
  have hbase : base ≤ base * (if expo then 2 ^ (n - 1) else 1) :=
    le_mul_of_one_le_right hb hfactor
  have heq : get_delay_secs base n expo jf j
      = base * (if expo then 2 ^ (n - 1) else 1) + (if jf then j else 0) := by
    unfold get_delay_secs
    cases expo <;> cases jf <;> ring
  have hnonneg : 0 ≤ get_delay_secs base n expo jf j := by
    rw [heq]
    cases jf with
    | false =>
      simp only [Bool.false_eq_true, if_false, add_zero]
      exact mul_nonneg hb (le_trans zero_le_one hfactor)
    | true =>
      simp at hj ⊢
      cases expo with
      | false =>
        simp
        linarith [hj.1]
      | true =>
        simp at hfactor ⊢
        have h2 : base ≤ base * 2 ^ (n - 1) := le_mul_of_one_le_right hb hfactor
        linarith [hj.1]
  refine ⟨heq, hnonneg, ?_⟩
  rw [heq] at hnonneg ⊢
  exact (max_eq_right hnonneg).symm

/-- Witness for C4 at base 10 s, attempt 3, exponential backoff on,
jitter sampled at -1 s. -/
theorem get_delay_secs_formula_witness :
    get_delay_secs 10 3 true true (-1)
      = 10 * (if true then (2 : ℚ) ^ (3 - 1) else 1) + (if true then (-1 : ℚ) else 0)
    ∧ (0 : ℚ) ≤ get_delay_secs 10 3 true true (-1)
    ∧ get_delay_secs 10 3 true true (-1)
      = max 0 (10 * (if true then (2 : ℚ) ^ (3 - 1) else 1)
          + (if true then (-1 : ℚ) else 0)) :=
  get_delay_secs_formula 10 (-1) 3 true true (by norm_num) (by norm_num)
    (by norm_num)

/-! ## `jobman/core/supervisor/abort.py`

Wall-clock instants are integer seconds; `datetime.max` becomes a fixed
sentinel strictly above every clock reading that ever occurs.  The
monitor's environment is an oracle: `now k` is the clock sample on the
k-th poll and `existsAt k f` says whether file `f` exists on that poll.
`os.kill` on the target pid is modelled by whether the target process is
still alive; the fuel bounds how many polls we observe (`none` means the
monitor was still polling). -/

/-- Outcome of `os.kill` on a pid whose process may have exited. -/
inductive OsErr : Type
  | processLookup
  deriving DecidableEq, Repr

/-- `datetime.max` of the embedding: all clock samples stay below it. -/
def DATETIME_MAX : Int := 253402300799

/-- Translation of `any_file_exists` (`jobman/core/supervisor/abort.py`):
`None` means no file list was given and never fires. -/
def any_file_exists (fs : Option (List String)) (existsNow : String → Bool) :
    Bool :=
  match fs with
  | none => false
  | some l => l.any existsNow

/-- Translation of `combine_aborts` (`jobman/core/supervisor/abort.py`).
Note the Python truthiness test `if abort_duration:` treats a zero
duration like an absent one. -/
def combine_aborts (abort_time abort_duration : Option Int) (now0 : Int) :
    Int :=
  let abort_duration_time : Int :=
    match abort_duration with
    | some d => if d ≠ 0 then now0 + d else DATETIME_MAX
    | none => DATETIME_MAX
  min (abort_time.getD DATETIME_MAX) abort_duration_time

/-- `os.kill(pid, sig)`: delivery succeeds iff the target process still
exists; on an exited pid it raises `ProcessLookupError`. -/
def os_kill (targetAlive : Bool) : Except OsErr Unit :=
  if targetAlive then .ok () else .error .processLookup

/-- The polling loop of `signal_on_abort`: test the abort disjunction
first, then sleep — here, advance to the next tick. -/
def signalOnAbortGo (finalAbortTime : Int) (targetAlive : Bool)
    (fs : Option (List String)) (existsAt : Nat → String → Bool)
    (now : Nat → Int) : Nat → Nat → Option (Except OsErr Unit)
  | 0, _ => none
  | fuel + 1, k =>
    if finalAbortTime ≤ now k ∨ any_file_exists fs (existsAt k) then
      some (os_kill targetAlive)
    else signalOnAbortGo finalAbortTime targetAlive fs existsAt now fuel (k + 1)

/-- Translation of `signal_on_abort` (`jobman/core/supervisor/abort.py`):
poll until any abort condition fires, then call `os.kill` on the target —
with no exception handling and no logger around the delivery. -/
def signal_on_abort (targetAlive : Bool)
    (abort_time abort_duration : Option Int) (fs : Option (List String))
    (existsAt : Nat → String → Bool) (now : Nat → Int) (fuel : Nat) :
    Option (Except OsErr Unit) :=
  signalOnAbortGo (combine_aborts abort_time abort_duration (now 0))
    targetAlive fs existsAt now fuel 0

/-- C7 counterexample: with an abort time already reached and a target
pid whose process has exited, `signal_on_abort` ends in the uncaught
`ProcessLookupError` from `os.kill` — the failure is not swallowed, and
`abort.py` has no logger to report it to. -/
theorem signal_on_abort_dead_pid_raises :
    signal_on_abort false (some 0) none none (fun _ _ => false) (fun _ => 0) 1
      = some (Except.error OsErr.processLookup)
    ∧ (some (Except.error OsErr.processLookup)
        ≠ some (Except.ok () : Except OsErr Unit)) :=
  ⟨rfl, by simp⟩

theorem signalOnAbortGo_some (finalAbortTime : Int) (targetAlive : Bool)
    (fs : Option (List String)) (existsAt : Nat → String → Bool)
    (now : Nat → Int) (fuel k : Nat) (r : Except OsErr Unit)
    (h : signalOnAbortGo finalAbortTime targetAlive fs existsAt now fuel k
      = some r) :
    r = os_kill targetAlive := by
  induction fuel generalizing k with
  | zero => simp [signalOnAbortGo] at h
  | succ fuel ih =>
    rw [signalOnAbortGo] at h
    by_cases hc : finalAbortTime ≤ now k ∨ any_file_exists fs (existsAt k)
    · rw [if_pos hc] at h
      exact (Option.some_inj.mp h).symm
    · rw [if_neg hc] at h
      exact ih (k + 1) h

/-- C7 amended: when the abort monitor fires, its outcome is exactly the
outcome of the one `os.kill` call: delivery to a live target returns
normally, while delivery to a pid that has already exited lets
`ProcessLookupError` propagate out of `signal_on_abort` uncaught (the
module neither catches it nor owns a logger), terminating the monitor
process. -/
theorem signal_on_abort_propagates (targetAlive : Bool)
    (abort_time abort_duration : Option Int) (fs : Option (List String))
    (existsAt : Nat → String → Bool) (now : Nat → Int) (fuel : Nat)
    (r : Except OsErr Unit)
    (h : signal_on_abort targetAlive abort_time abort_duration fs existsAt
      now fuel = some r) :
    r = os_kill targetAlive
    ∧ (targetAlive = false → r = Except.error OsErr.processLookup)
    ∧ (targetAlive = true → r = Except.ok ()) := by
  have hr := signalOnAbortGo_some _ targetAlive fs existsAt now fuel 0 r h
  refine ⟨hr, ?_, ?_⟩
  · intro ha
    rw [hr, ha]
    rfl
  · intro ha
    rw [hr, ha]
    rfl

/-- Witness for C7's amended theorem at a concrete firing run of the
monitor. -/
theorem signal_on_abort_propagates_witness :
    (Except.error OsErr.processLookup : Except OsErr Unit) = os_kill false
    ∧ signal_on_abort false (some 5) (some 3) none (fun _ _ => false)
        (fun k => (k : Int)) 9
      = some (Except.error OsErr.processLookup) :=
  ⟨(signal_on_abort_propagates false (some 5) (some 3) none
      (fun _ _ => false) (fun k => (k : Int)) 9
      (Except.error OsErr.processLookup) rfl).1, rfl⟩

/-! ## The persistent store and the inspection operations

`jobman/models.py` defines the `Job` and `Run` tables; the records below
keep the columns the inspection operations read.  A sqlite table is a
list of rows; a `SELECT ... WHERE` is a `filter`, and peewee's
`Run.select().join(Job).where(...)` joins a run to the job row whose
`job_id` it references (the schema's `unique=True` on `Job.job_id` keeps
that join duplicate-free).  Times are integer seconds; `state` holds the
enum integer codes. -/

/-- Columns of the `Job` table used by `ls`, `status`, `kill`, `purge`. -/
structure JobRec : Type where
  job_id : String
  host_id : String
  state : Nat
  start_time : Option Int
  deriving DecidableEq, Repr

/-- Columns of the `Run` table used by the inspection operations. -/
structure RunRec : Type where
  job_id : String
  attempt : Nat
  state : Nat
  pid : Option Nat
  killed : Bool
  deriving DecidableEq, Repr

/-- The store: the two tables of the sqlite database. -/
structure Store : Type where
  jobs : List JobRec
  runs : List RunRec
  deriving DecidableEq, Repr

/-- Integer code of `JobState.SUBMITTED` / `RunState.SUBMITTED`. -/
def SUBMITTED : Nat := 0

/-- Integer code of `JobState.RUNNING` / `RunState.RUNNING`. -/
def RUNNING : Nat := 1

/-- Integer code of `JobState.COMPLETE` / `RunState.COMPLETE`. -/
def COMPLETE : Nat := 2

/-- The jobs query of `ls` (`jobman/core/ls.py`): host-scoped, and
restricted to Submitted/Running states unless `all_` is set. -/
def ls_jobs (h : String) (all_ : Bool) (s : Store) : List JobRec :=
  if all_ then s.jobs.filter (fun j => j.host_id == h)
  else
    s.jobs.filter (fun j =>
      j.host_id == h && (j.state == SUBMITTED || j.state == RUNNING))

/-- `Run.select().join(Job).where(Job.job_id << ids)`: the runs whose
referenced job row has a `job_id` in `ids`. -/
def runsJoinWhereJobIdIn (ids : List String) (s : Store) : List RunRec :=
  s.runs.filter (fun r =>
    s.jobs.any (fun j => j.job_id == r.job_id && ids.contains j.job_id))

/-- Translation of `ls` (`jobman/core/ls.py`): the host's jobs, plus —
when `show_runs` — the runs of the selected jobs. -/
def ls (h : String) (all_ show_runs : Bool) (s : Store) :
    List JobRec × Option (List RunRec) :=
  let jobs := ls_jobs h all_ s
  (jobs,
    if show_runs then some (runsJoinWhereJobIdIn (jobs.map fun j => j.job_id) s)
    else none)

/-- Translation of `status` (`jobman/core/status.py`): the jobs query is
scoped to the host AND the requested ids, but the runs query joins on the
requested ids alone. -/
def status (h : String) (job_id : List String) (no_runs : Bool) (s : Store) :
    List JobRec × Option (List RunRec) :=
  let jobs := s.jobs.filter (fun j => j.host_id == h && job_id.contains j.job_id)
  (jobs, if no_runs then none else some (runsJoinWhereJobIdIn job_id s))

/-- The query part of `kill` (`jobman/core/kill.py`): the requested ids
that exist for this host, the ids among them with no active run, and the
selected active runs (`state = RUNNING` and `pid` non-null). -/
def kill_select (h : String) (job_id : List String) (s : Store) :
    List String × List String × List RunRec :=
  let existent :=
    (s.jobs.filter fun j => j.host_id == h && job_id.contains j.job_id).map
      fun j => j.job_id
  let nonexistent := job_id.filter fun jid => !(existent.contains jid)
  let runs := s.runs.filter fun r =>
    s.jobs.any (fun j => j.job_id == r.job_id && existent.contains j.job_id)
      && r.state == RUNNING && r.pid.isSome
  let nonrunning := existent.filter fun jid => !(runs.any fun r => r.job_id == jid)
  (nonexistent, nonrunning, runs)

/-! ### `jobman/core/ls.py` `display_ls` sort

`jobs.sort(key=lambda j: (j.start_time is None, j.start_time),
reverse=True)`.  The comparator on sort keys: a key with a null
`start_time` compares above every non-null key (`False < True` on the
first component), and two non-null keys compare by their times.  (CPython
raises `TypeError` when it has to order two null keys; the comparator
treats them as tied, which is the only case a sort of at most one
null-started job never exercises.) -/

/-- Strict comparator on the sort keys `(start_time is None, start_time)`. -/
def optKeyLt : Option Int → Option Int → Bool
  | some x, some y => decide (x < y)
  | some _, none => true
  | none, some _ => false
  | none, none => false

/-- Key comparator lifted to job rows. -/
def pyKeyLt (a b : JobRec) : Bool :=
  optKeyLt a.start_time b.start_time

/-- Insert `x` into a descending-sorted list, after every element whose
key is not strictly below `x`'s — the placement CPython's stable
`list.sort(..., reverse=True)` gives the latest-scanned element. -/
def insertDescBy {α : Type} (lt : α → α → Bool) (x : α) : List α → List α
  | [] => [x]
  | y :: ys => if lt y x then x :: y :: ys else y :: insertDescBy lt x ys

/-- Stable descending sort by a strict comparator: `list.sort(key=k,
reverse=True)`. -/
def sortDescBy {α : Type} (lt : α → α → Bool) (l : List α) : List α :=
  l.foldl (fun acc x => insertDescBy lt x acc) []

theorem insertDescBy_perm {α : Type} (lt : α → α → Bool) (x : α)
    (l : List α) : List.Perm (insertDescBy lt x l) (x :: l) := by
  induction l with
  | nil => exact List.Perm.refl _
  | cons y ys ih =>
    by_cases h : lt y x = true
    · simp [insertDescBy, h]
    · have h' : lt y x = false := by simpa using h
      simp only [insertDescBy, h', Bool.false_eq_true, if_false]
      exact List.Perm.trans (ih.cons y) (List.Perm.swap x y ys)

theorem mem_insertDescBy {α : Type} (lt : α → α → Bool) (x a : α)
    (l : List α) : a ∈ insertDescBy lt x l ↔ a = x ∨ a ∈ l := by
  rw [(insertDescBy_perm lt x l).mem_iff]
  simp

theorem foldl_insertDescBy_perm {α : Type} (lt : α → α → Bool)
    (l acc : List α) :
    List.Perm (l.foldl (fun a x => insertDescBy lt x a) acc) (acc ++ l) := by
  induction l generalizing acc with
  | nil => simp
  | cons x xs ih =>
    simp only [List.foldl_cons]
    exact List.Perm.trans (ih _)
      (List.Perm.trans ((insertDescBy_perm lt x acc).append_right xs)
        List.perm_middle.symm)

theorem sortDescBy_perm {α : Type} (lt : α → α → Bool) (l : List α) :
    List.Perm (sortDescBy lt l) l := by
  have := foldl_insertDescBy_perm lt l []
  simpa [sortDescBy] using this

theorem insertDescBy_pairwise {α : Type} (lt : α → α → Bool)
    (htrans : ∀ a b c, lt a b = true → lt b c = true → lt a c = true)
    (hasym : ∀ a b, lt a b = true → lt b a = false) (x : α) (l : List α)
    (hl : l.Pairwise fun a b => lt a b = false) :
    (insertDescBy lt x l).Pairwise fun a b => lt a b = false := by
  induction l with
  | nil => simp [insertDescBy]
  | cons y ys ih =>
    rcases List.pairwise_cons.mp hl with ⟨hy, hys⟩
    by_cases h : lt y x = true
    · simp only [insertDescBy, h, if_true]
      refine List.pairwise_cons.mpr ⟨?_, hl⟩
      intro b hb
      rcases List.mem_cons.mp hb with hb | hb
      · rw [hb]
        exact hasym y x h
      · cases hxb : lt x b with
        | false => rfl
        | true =>
          have := htrans y x b h hxb
          rw [hy b hb] at this
          exact absurd this (by simp)
    · have h' : lt y x = false := by simpa using h
      simp only [insertDescBy, h', Bool.false_eq_true, if_false]
      refine List.pairwise_cons.mpr ⟨?_, ih hys⟩
      intro b hb
      rcases (mem_insertDescBy lt x b ys).mp hb with hb | hb
      · rw [hb]
        exact h'
      · exact hy b hb

theorem foldl_insertDescBy_pairwise {α : Type} (lt : α → α → Bool)
    (htrans : ∀ a b c, lt a b = true → lt b c = true → lt a c = true)
    (hasym : ∀ a b, lt a b = true → lt b a = false) (l acc : List α)
    (hacc : acc.Pairwise fun a b => lt a b = false) :
    (l.foldl (fun a x => insertDescBy lt x a) acc).Pairwise
      fun a b => lt a b = false := by
  induction l generalizing acc with
  | nil => exact hacc
  | cons x xs ih =>
    simp only [List.foldl_cons]
    exact ih _ (insertDescBy_pairwise lt htrans hasym x acc hacc)

theorem optKeyLt_trans (a b c : Option Int) (hab : optKeyLt a b = true)
    (hbc : optKeyLt b c = true) : optKeyLt a c = true := by
  rcases a with _ | x <;> rcases b with _ | y <;> rcases c with _ | z <;>
    simp_all [optKeyLt] <;> omega

theorem optKeyLt_asymm (a b : Option Int) (hab : optKeyLt a b = true) :
    optKeyLt b a = false := by
  rcases a with _ | x <;> rcases b with _ | y <;>
    simp_all [optKeyLt] <;> omega

theorem sortDescBy_pyKeyLt_pairwise (l : List JobRec) :
    (sortDescBy pyKeyLt l).Pairwise fun a b => pyKeyLt a b = false := by
  refine foldl_insertDescBy_pairwise pyKeyLt ?_ ?_ l [] (by simp)
  · intro a b c hab hbc
    exact optKeyLt_trans _ _ _ hab hbc
  · intro a b hab
    exact optKeyLt_asymm _ _ hab

/-- C8 counterexample: two completed jobs of the same host, one with
`start_time` set and one with `start_time` NULL; `display_ls` sorts the
null-started job first, not last. -/
theorem ls_sort_nulls_first :
    sortDescBy pyKeyLt
        [⟨"aaaaaaaa", "cafecafecafe", 2, some 5⟩,
         ⟨"bbbbbbbb", "cafecafecafe", 2, none⟩]
      = [⟨"bbbbbbbb", "cafecafecafe", 2, none⟩,
         ⟨"aaaaaaaa", "cafecafecafe", 2, some 5⟩]
    ∧ sortDescBy pyKeyLt
        [⟨"aaaaaaaa", "cafecafecafe", 2, some 5⟩,
         ⟨"bbbbbbbb", "cafecafecafe", 2, none⟩]
      ≠ [⟨"aaaaaaaa", "cafecafecafe", 2, some 5⟩,
         ⟨"bbbbbbbb", "cafecafecafe", 2, none⟩] := by
  constructor
  · rfl
  · decide

/-- C8 amended: with `all` false, `ls` returns exactly the host's jobs in
state Submitted or Running; the displayed list is a permutation of the
result sorted newest-first by `start_time` — but jobs with a NULL
`start_time` are placed first, not last (the sort key `(start_time is
None, start_time)` under `reverse=True` puts null keys on top). -/
theorem ls_filter_and_sort :
    (∀ (h : String) (sr : Bool) (s : Store) (j : JobRec),
      j ∈ (ls h false sr s).1
        ↔ j ∈ s.jobs ∧ j.host_id = h
            ∧ (j.state = SUBMITTED ∨ j.state = RUNNING))
    ∧ (∀ l : List JobRec,
        List.Perm (sortDescBy pyKeyLt l) l
        ∧ (sortDescBy pyKeyLt l).Pairwise
            (fun a b => b.start_time = none → a.start_time = none)
        ∧ (sortDescBy pyKeyLt l).Pairwise
            (fun a b => ∀ ta tb,
              a.start_time = some ta → b.start_time = some tb → tb ≤ ta)) := by
  constructor
  · intro h sr s j
    show j ∈ ls_jobs h false s ↔ _
    simp [ls_jobs, List.mem_filter, and_assoc]
  · intro l
    have hpw := sortDescBy_pyKeyLt_pairwise l
    refine ⟨sortDescBy_perm pyKeyLt l, ?_, ?_⟩
    · refine hpw.imp ?_
      intro a b hab hbn
      rcases hat : a.start_time with _ | ta
      · rfl
      · rw [pyKeyLt, hat, hbn] at hab
        simp [optKeyLt] at hab
    · refine hpw.imp ?_
      intro a b hab ta tb hat hbt
      rw [pyKeyLt, hat, hbt] at hab
      simp [optKeyLt] at hab
      omega

/-! ### Host scoping (C3)

Two stores agree on a host when they hold the same job rows for that
host and the same run rows belonging to those jobs (a run has no
`host_id` of its own; it belongs to a host through its job). -/

/-- The job rows owned by host `h`. -/
def hostJobs (h : String) (s : Store) : List JobRec :=
  s.jobs.filter fun j => j.host_id == h

/-- The ids of the job rows owned by host `h`. -/
def hostJobIds (h : String) (s : Store) : List String :=
  (hostJobs h s).map fun j => j.job_id

/-- The run rows owned by host `h` (those referencing one of its jobs). -/
def hostRuns (h : String) (s : Store) : List RunRec :=
  s.runs.filter fun r => (hostJobIds h s).contains r.job_id

/-- Two stores agree on everything host `h` owns. -/
def AgreeOnHost (h : String) (s1 s2 : Store) : Prop :=
  hostJobs h s1 = hostJobs h s2 ∧ hostRuns h s1 = hostRuns h s2

instance (h : String) (s1 s2 : Store) : Decidable (AgreeOnHost h s1 s2) :=
  inferInstanceAs (Decidable (_ ∧ _))

theorem filter_eq_filter_filter {α : Type} (p q : α → Bool)
    (himp : ∀ a, p a = true → q a = true) (l : List α) :
    l.filter p = (l.filter q).filter p := by
  induction l with
  | nil => rfl
  | cons x xs ih =>
    cases hp : p x with
    | true =>
      have hq := himp x hp
      simp [List.filter_cons, hp, hq, ih]
    | false =>
      cases hq : q x with
      | true => simp [List.filter_cons, hp, hq, ih]
      | false => simp [List.filter_cons, hp, hq, ih]

theorem runsJoin_eq_filter (ids : List String) (s : Store)
    (hids : ∀ jid ∈ ids, ∃ j ∈ s.jobs, j.job_id = jid) :
    runsJoinWhereJobIdIn ids s
      = s.runs.filter fun r => ids.contains r.job_id := by
  refine List.filter_congr ?_
  intro r _
  cases hmem : ids.contains r.job_id with
  | true =>
    have hr : r.job_id ∈ ids := by simpa using hmem
    rcases hids r.job_id hr with ⟨j, hj, hjid⟩
    rw [List.any_eq_true]
    refine ⟨j, hj, ?_⟩
    rw [hjid]
    simpa using hr
  | false =>
    rw [List.any_eq_false]
    intro j hj
    cases hjr : j.job_id == r.job_id with
    | true =>
      have hje : j.job_id = r.job_id := by simpa using hjr
      have hnin : r.job_id ∉ ids := by simpa using hmem
      simp [hje, hnin]
    | false => simp [hjr]

/-- Ids selected by a host-scoped job filter all name a job row of the
store. -/
theorem mem_map_filter_exists (p : JobRec → Bool) (s : Store)
    (jid : String) (hjid : jid ∈ (s.jobs.filter p).map fun j => j.job_id) :
    ∃ j ∈ s.jobs, j.job_id = jid := by
  rcases List.mem_map.mp hjid with ⟨j, hj, rfl⟩
  exact ⟨j, (List.mem_filter.mp hj).1, rfl⟩

/-- Ids selected by a filter that conjoins the host test are host job
ids. -/
theorem contains_hostJobIds_of_filter (h : String) (s : Store)
    (p : JobRec → Bool) (himp : ∀ j, p j = true → (j.host_id == h) = true)
    (jid : String) (hjid : jid ∈ (s.jobs.filter p).map fun j => j.job_id) :
    (hostJobIds h s).contains jid = true := by
  rcases List.mem_map.mp hjid with ⟨j, hj, rfl⟩
  rcases List.mem_filter.mp hj with ⟨hjs, hpj⟩
  have hmem : j ∈ hostJobs h s := List.mem_filter.mpr ⟨hjs, himp j hpj⟩
  have : j.job_id ∈ hostJobIds h s := List.mem_map.mpr ⟨j, hmem, rfl⟩
  simpa using this

/-- Under agreement, a join restricted to ids of host-filtered jobs is
identical in the two stores. -/
theorem runsJoin_agree (h : String) (s1 s2 : Store)
    (hag : AgreeOnHost h s1 s2) (ids : List String)
    (hin1 : ∀ jid ∈ ids, ∃ j ∈ s1.jobs, j.job_id = jid)
    (hin2 : ∀ jid ∈ ids, ∃ j ∈ s2.jobs, j.job_id = jid)
    (hhost1 : ∀ jid ∈ ids, (hostJobIds h s1).contains jid = true) :
    runsJoinWhereJobIdIn ids s1 = runsJoinWhereJobIdIn ids s2 := by
  have hhost2 : ∀ jid ∈ ids, (hostJobIds h s2).contains jid = true := by
    intro jid hj
    have := hhost1 jid hj
    unfold hostJobIds at this ⊢
    rw [← hag.1]
    exact this
  rw [runsJoin_eq_filter ids s1 hin1, runsJoin_eq_filter ids s2 hin2]
  have hsub1 : ∀ r : RunRec, (ids.contains r.job_id) = true →
      ((hostJobIds h s1).contains r.job_id) = true := by
    intro r hr
    exact hhost1 r.job_id (by simpa using hr)
  have hsub2 : ∀ r : RunRec, (ids.contains r.job_id) = true →
      ((hostJobIds h s2).contains r.job_id) = true := by
    intro r hr
    exact hhost2 r.job_id (by simpa using hr)
  rw [filter_eq_filter_filter _ _ hsub1 s1.runs,
    filter_eq_filter_filter _ _ hsub2 s2.runs]
  show (hostRuns h s1).filter _ = (hostRuns h s2).filter _
  rw [hag.2]

/-! ### `jobman/core/purge.py` -/

/-- The `click.exceptions.UsageError` raised when neither or both of the
id list and the `all` flag are supplied. -/
inductive UsageError : Type
  | mk
  deriving DecidableEq, Repr

/-- Result triple of `purge` (`PurgeResult` in `jobman/core/purge.py`). -/
structure PurgeResult : Type where
  nonexistent_job_ids : List String
  purged_job_ids : List String
  skipped_job_ids : List String
  deriving DecidableEq, Repr

/-- SQL `Job.start_time >= since` (NULL compares unknown, so a NULL
`start_time` never satisfies the bound). -/
def startTimeGE (t : Int) (j : JobRec) : Bool :=
  match j.start_time with
  | some st => decide (t ≤ st)
  | none => false

/-- SQL `Job.start_time <= until`. -/
def startTimeLE (t : Int) (j : JobRec) : Bool :=
  match j.start_time with
  | some st => decide (st ≤ t)
  | none => false

/-- The chained `WHERE` clauses of `purge`: host scope, then the id list
when given, then the optional since/until bounds. -/
def purge_matching (h : String) (job_id : List String)
    (since untl : Option Int) (s : Store) : List JobRec :=
  let q0 := s.jobs.filter fun j => j.host_id == h
  let q1 := if job_id.isEmpty then q0
    else q0.filter fun j => job_id.contains j.job_id
  let q2 := match since with
    | none => q1
    | some t => q1.filter (startTimeGE t)
  match untl with
  | none => q2
  | some t => q2.filter (startTimeLE t)

/-- The selection logic of `purge` (`jobman/core/purge.py`): jobs in the
filter that are not Complete are skipped (and double as
`running_job_ids`); the rest are purged in query order; requested ids
matching neither set are nonexistent. -/
def purge_query (h : String) (job_id : List String)
    (since untl : Option Int) (s : Store) : PurgeResult :=
  let matching := purge_matching h job_id since untl s
  let running_job_ids :=
    (matching.filter fun j => !(j.state == COMPLETE)).map fun j => j.job_id
  let purged_job_ids :=
    (matching.filter fun j => !(running_job_ids.contains j.job_id)).map
      fun j => j.job_id
  let nonexistent_job_ids :=
    job_id.filter fun jid => !((purged_job_ids ++ running_job_ids).contains jid)
  ⟨nonexistent_job_ids, purged_job_ids, running_job_ids⟩

/-- Translation of `purge` (`jobman/core/purge.py`): a usage error unless
exactly one of the id list and the `all` flag is supplied (the Python
test is `not (bool(job_id) ^ _all)`), otherwise the selection above.  The
deletions it performs on the store are modelled by `purge_jobs_after` and
`purge_runs_after`. -/
def purge (h : String) (job_id : List String) (_all : Bool)
    (since untl : Option Int) (s : Store) : Except UsageError PurgeResult :=
  if (!job_id.isEmpty) == _all then .error .mk
  else .ok (purge_query h job_id since untl s)

/-- The job rows remaining after `purge` with `metadata=True` ran
`job.delete_instance(recursive=True)` on every purged job: a row is
removed iff it matched the filter and its id is not among the skipped
(non-Complete) ids.  With `metadata=False` no store row is touched. -/
def purge_jobs_after (h : String) (job_id : List String)
    (since untl : Option Int) (metadata : Bool) (s : Store) : List JobRec :=
  if metadata then
    let matching := purge_matching h job_id since untl s
    let running_job_ids :=
      (matching.filter fun j => !(j.state == COMPLETE)).map fun j => j.job_id
    s.jobs.filter fun j =>
      !(matching.contains j && !(running_job_ids.contains j.job_id))
  else s.jobs

/-- The run rows remaining after `purge` with `metadata=True`: the
recursive delete removes each purged job's runs. -/
def purge_runs_after (h : String) (job_id : List String)
    (since untl : Option Int) (metadata : Bool) (s : Store) : List RunRec :=
  if metadata then
    s.runs.filter fun r =>
      !((purge_query h job_id since untl s).purged_job_ids.contains r.job_id)
  else s.runs

/-! ## The supervisor loop as a store-write trace (`run_job`/`run_run`)

`run_job` drives `range((job.retry_attempts or 0) + 1)` attempts; each
attempt's `run_run` forks the child and persists run and job state
around it.  The embedding records every `save()` as an event, in program
order.  The environment is an oracle: `exits a` is the child's exit code
on attempt `a`, and `extKill a` says whether an external `jobman kill`
persisted `killed=True` on the attempt's run row while the child was
running (`kill` only selects runs with `state=RUNNING` and a pid, so the
write lands between the Running save and the Complete save).  The
supervisor's own `Run` object keeps `killed=False` throughout: the loop
reads the in-memory attribute, never the database row, and the terminal
`run.save()` of `run_run` writes the in-memory `killed=False` back. -/

/-- One persisted write: a `job.save()` carrying the job state, the
initial `run.save()` of a fresh run (state Submitted, `killed=False`), or
a later `run.save()` carrying run state, killed flag and exit code. -/
inductive StoreEv : Type
  | jobWrite (state : Nat)
  | runCreate (attempt : Nat)
  | runWrite (attempt : Nat) (state : Nat) (killed : Bool) (exit : Option Int)
  deriving DecidableEq, Repr

/-- The supervisor's in-memory `Run` object fields read by the loop. -/
structure MemRun : Type where
  attempt : Nat
  exit_code : Option Int
  killed : Bool
  deriving DecidableEq, Repr

/-- `run.exit_code in job.success_codes or run.killed` on the in-memory
run of the previous attempt. -/
def bailCheck (success_codes : List Int) (run : MemRun) : Bool :=
  (match run.exit_code with
    | some e => success_codes.contains e
    | none => false) || run.killed

/-- `attempt != 0 and (run.exit_code in job.success_codes or run.killed)`;
before the first attempt no `run` is bound. -/
def shouldBail (success_codes : List Int) (attempt : Nat)
    (prev : Option MemRun) : Bool :=
  (attempt != 0) &&
    (match prev with
      | some run => bailCheck success_codes run
      | none => false)

/-- The writes of one attempt, in `run_run` order: create the run
(Submitted), persist pid/`state=RUNNING`, persist `job.state=RUNNING`,
then — if an external kill strikes — the kill's `run.save()` with
`killed=True`; on child exit persist the run Complete (the supervisor's
in-memory object still has `killed=False`, clobbering the kill's flag)
and the job Complete. -/
def attemptEvents (attempt : Nat) (exit : Int) (extKill : Bool) :
    List StoreEv :=
  [.runCreate attempt, .runWrite attempt RUNNING false none,
    .jobWrite RUNNING]
  ++ (if extKill then [.runWrite attempt RUNNING true none] else [])
  ++ [.runWrite attempt COMPLETE false (some exit), .jobWrite COMPLETE]

/-- The attempt loop of `run_job`, fuelled by the remaining iterations of
`range(total_attempts)`.  On bail the job is saved Complete (with the
previous run's outcome) and the loop breaks. -/
def run_job_loop (success_codes : List Int) (exits : Nat → Int)
    (extKill : Nat → Bool) : Nat → Nat → Option MemRun → List StoreEv
  | 0, _, _ => []
  | fuel + 1, attempt, prev =>
    if shouldBail success_codes attempt prev then [.jobWrite COMPLETE]
    else
      attemptEvents attempt (exits attempt) (extKill attempt)
        ++ run_job_loop success_codes exits extKill fuel (attempt + 1)
          (some ⟨attempt, some (exits attempt), false⟩)

/-- Translation of `run_job` (`jobman/core/supervisor/run.py`) as its
sequence of store writes: `build_job` saves the job Submitted, then the
loop runs `(retry_attempts or 0) + 1` attempts with the bail check
before each retry. -/
def run_job (retry_attempts : Option Nat) (success_codes : List Int)
    (exits : Nat → Int) (extKill : Nat → Bool) : List StoreEv :=
  .jobWrite SUBMITTED ::
    run_job_loop success_codes exits extKill (retry_attempts.getD 0 + 1) 0 none

/-- The job states persisted over a trace, in order. -/
def jobStateWrites (tr : List StoreEv) : List Nat :=
  tr.filterMap fun e =>
    match e with
    | .jobWrite s => some s
    | _ => none

/-- The states persisted for run `i` over a trace, in order (its creation
persists Submitted). -/
def runStateWrites (i : Nat) (tr : List StoreEv) : List Nat :=
  tr.filterMap fun e =>
    match e with
    | .runCreate a => if a = i then some SUBMITTED else none
    | .runWrite a s _ _ => if a = i then some s else none
    | _ => none

/-- The attempt numbers of the run creations in a trace, in order. -/
def runCreates (tr : List StoreEv) : List Nat :=
  tr.filterMap fun e =>
    match e with
    | .runCreate a => some a
    | _ => none

/-- The job-state transitions `run_job` actually writes: forward steps,
plus Complete → Running when a retry attempt starts, plus Complete →
Complete on the bail-path save. -/
def JobTransOk (a b : Nat) : Prop :=
  (a = SUBMITTED ∧ b = RUNNING) ∨ (a = RUNNING ∧ b = COMPLETE)
  ∨ (a = COMPLETE ∧ b = RUNNING) ∨ (a = COMPLETE ∧ b = COMPLETE)

instance (a b : Nat) : Decidable (JobTransOk a b) :=
  inferInstanceAs (Decidable (_ ∨ _))

/-- The concrete trace of the C2 scenario: `retry_attempts=1`,
`success_codes=[0]`, the child dies with 130 on each attempt, and an
external `jobman kill` persists `killed=True` during attempt 0. -/
def killedScenarioTrace : List StoreEv :=
  [.jobWrite SUBMITTED,
    .runCreate 0, .runWrite 0 RUNNING false none, .jobWrite RUNNING,
    .runWrite 0 RUNNING true none,
    .runWrite 0 COMPLETE false (some 130), .jobWrite COMPLETE,
    .runCreate 1, .runWrite 1 RUNNING false none, .jobWrite RUNNING,
    .runWrite 1 COMPLETE false (some 130), .jobWrite COMPLETE]

/-- Pointwise value of the join condition: a run passes the join filter
iff its job id is among the requested ids, provided every requested id
names some job row. -/
theorem any_join_eq (s : Store) (ids : List String)
    (hids : ∀ jid ∈ ids, ∃ j ∈ s.jobs, j.job_id = jid) (r : RunRec) :
    (s.jobs.any fun j => j.job_id == r.job_id && ids.contains j.job_id)
      = ids.contains r.job_id := by
  cases hmem : ids.contains r.job_id with
  | true =>
    have hr : r.job_id ∈ ids := by simpa using hmem
    rcases hids r.job_id hr with ⟨j, hj, hjid⟩
    rw [List.any_eq_true]
    refine ⟨j, hj, ?_⟩
    rw [hjid]
    simpa using hr
  | false =>
    rw [List.any_eq_false]
    intro j hj
    cases hjr : j.job_id == r.job_id with
    | true =>
      have hje : j.job_id = r.job_id := by simpa using hjr
      have hnin : r.job_id ∉ ids := by simpa using hmem
      simp [hje, hnin]
    | false => simp [hjr]

/-- C3 counterexample: the two stores agree on every row this host owns
(none in either), and differ only in another machine's job and that job's
run; `status` on the foreign job id finds no job in either store, yet its
runs query — which joins on the requested ids with no host filter —
surfaces the foreign run in the second store, so the results differ. -/
theorem status_surfaces_foreign_runs :
    AgreeOnHost "aaaaaaaaaaaa" ⟨[], []⟩
      ⟨[⟨"deadbeef", "bbbbbbbbbbbb", 2, some 0⟩],
        [⟨"deadbeef", 0, 2, some 42, false⟩]⟩
    ∧ status "aaaaaaaaaaaa" ["deadbeef"] false ⟨[], []⟩
        ≠ status "aaaaaaaaaaaa" ["deadbeef"] false
            ⟨[⟨"deadbeef", "bbbbbbbbbbbb", 2, some 0⟩],
              [⟨"deadbeef", 0, 2, some 42, false⟩]⟩ := by
  refine ⟨by decide, by decide⟩

/-- C3 amended: every job-table query of `ls`, `status`, `kill` and
`purge` filters by this machine's host id, so those selections — and the
jobs component of `status` — depend only on the rows this host owns; but
the runs query of `status` filters only by the requested job ids, so
another machine's runs can surface (see the counterexample).  Stated as
noninterference: on any two stores agreeing on this host's rows, `ls`
(both flags), the `kill` selection, the `purge` selection and the jobs
component of `status` coincide. -/
theorem host_scoping_noninterference (h : String) (s1 s2 : Store)
    (hag : AgreeOnHost h s1 s2) :
    (∀ all_ show_runs : Bool,
      ls h all_ show_runs s1 = ls h all_ show_runs s2)
    ∧ (∀ (job_id : List String) (no_runs : Bool),
        (status h job_id no_runs s1).1 = (status h job_id no_runs s2).1)
    ∧ (∀ job_id : List String,
        kill_select h job_id s1 = kill_select h job_id s2)
    ∧ (∀ (job_id : List String) (_all : Bool) (since untl : Option Int),
        purge h job_id _all since untl s1 = purge h job_id _all since untl s2) := by
  have hfilter : ∀ p : JobRec → Bool,
      (∀ j, p j = true → (j.host_id == h) = true) →
      s1.jobs.filter p = s2.jobs.filter p := by
    intro p hp
    rw [filter_eq_filter_filter p (fun j => j.host_id == h) hp s1.jobs,
      filter_eq_filter_filter p (fun j => j.host_id == h) hp s2.jobs]
    show (hostJobs h s1).filter p = (hostJobs h s2).filter p
    rw [hag.1]
  refine ⟨?_, ?_, ?_, ?_⟩
  · -- ls
    intro all_ sr
    obtain ⟨p, hp, hpf⟩ : ∃ p : JobRec → Bool,
        (∀ j, p j = true → (j.host_id == h) = true)
        ∧ ∀ s : Store, ls_jobs h all_ s = s.jobs.filter p := by
      cases all_ with
      | true => exact ⟨fun j => j.host_id == h, fun j hj => hj, fun s => rfl⟩
      | false =>
        refine ⟨fun j => j.host_id == h
          && (j.state == SUBMITTED || j.state == RUNNING), ?_, fun s => rfl⟩
        intro j hj
        rw [Bool.and_eq_true] at hj
        exact hj.1
    have hjobs12 : s1.jobs.filter p = s2.jobs.filter p := hfilter p hp
    have hruns : runsJoinWhereJobIdIn ((s1.jobs.filter p).map fun j => j.job_id) s1
        = runsJoinWhereJobIdIn ((s1.jobs.filter p).map fun j => j.job_id) s2 := by
      refine runsJoin_agree h s1 s2 hag _ ?_ ?_ ?_
      · exact fun jid hjid => mem_map_filter_exists p s1 jid hjid
      · intro jid hjid
        rw [hjobs12] at hjid
        exact mem_map_filter_exists p s2 jid hjid
      · exact fun jid hjid => contains_hostJobIds_of_filter h s1 p hp jid hjid
    show (ls_jobs h all_ s1,
        if sr then
          some (runsJoinWhereJobIdIn ((ls_jobs h all_ s1).map fun j => j.job_id) s1)
        else none)
      = (ls_jobs h all_ s2,
        if sr then
          some (runsJoinWhereJobIdIn ((ls_jobs h all_ s2).map fun j => j.job_id) s2)
        else none)
    rw [hpf s1, hpf s2]
    cases sr with
    | false => simp [hjobs12]
    | true =>
      rw [if_pos rfl, if_pos rfl, ← hjobs12, hruns, hjobs12]
  · -- status jobs component
    intro job_id nr
    show s1.jobs.filter _ = s2.jobs.filter _
    refine hfilter _ ?_
    intro j hj
    rw [Bool.and_eq_true] at hj
    exact hj.1
  · -- kill selection
    intro job_id
    have hp : ∀ j : JobRec,
        (j.host_id == h && job_id.contains j.job_id) = true →
        (j.host_id == h) = true := by
      intro j hj
      rw [Bool.and_eq_true] at hj
      exact hj.1
    have hjobs12 :
        s1.jobs.filter (fun j => j.host_id == h && job_id.contains j.job_id)
        = s2.jobs.filter (fun j => j.host_id == h && job_id.contains j.job_id) :=
      hfilter _ hp
    have hm : ((s1.jobs.filter fun j =>
          j.host_id == h && job_id.contains j.job_id).map fun j => j.job_id)
        = ((s2.jobs.filter fun j =>
          j.host_id == h && job_id.contains j.job_id).map fun j => j.job_id) := by
      rw [hjobs12]
    have hruns :
        (s1.runs.filter fun r =>
          s1.jobs.any (fun j => j.job_id == r.job_id
              && ((s1.jobs.filter fun j =>
                j.host_id == h && job_id.contains j.job_id).map
                  fun j => j.job_id).contains j.job_id)
            && r.state == RUNNING && r.pid.isSome)
        = (s2.runs.filter fun r =>
          s2.jobs.any (fun j => j.job_id == r.job_id
              && ((s1.jobs.filter fun j =>
                j.host_id == h && job_id.contains j.job_id).map
                  fun j => j.job_id).contains j.job_id)
            && r.state == RUNNING && r.pid.isSome) := by
      have hin1 : ∀ jid ∈ ((s1.jobs.filter fun j =>
            j.host_id == h && job_id.contains j.job_id).map fun j => j.job_id),
          ∃ j ∈ s1.jobs, j.job_id = jid :=
        fun jid hjid => mem_map_filter_exists _ s1 jid hjid
      have hin2 : ∀ jid ∈ ((s1.jobs.filter fun j =>
            j.host_id == h && job_id.contains j.job_id).map fun j => j.job_id),
          ∃ j ∈ s2.jobs, j.job_id = jid := by
        intro jid hjid
        rw [hjobs12] at hjid
        exact mem_map_filter_exists _ s2 jid hjid
      have e1 : ∀ s : Store,
          (∀ jid ∈ ((s1.jobs.filter fun j =>
            j.host_id == h && job_id.contains j.job_id).map fun j => j.job_id),
            ∃ j ∈ s.jobs, j.job_id = jid) →
          (s.runs.filter fun r =>
            s.jobs.any (fun j => j.job_id == r.job_id
                && ((s1.jobs.filter fun j =>
                  j.host_id == h && job_id.contains j.job_id).map
                    fun j => j.job_id).contains j.job_id)
              && r.state == RUNNING && r.pid.isSome)
          = s.runs.filter fun r =>
            ((s1.jobs.filter fun j =>
              j.host_id == h && job_id.contains j.job_id).map
                fun j => j.job_id).contains r.job_id
              && r.state == RUNNING && r.pid.isSome := by
        intro s hin
        refine List.filter_congr ?_
        intro r _
        rw [any_join_eq s _ hin r]
      rw [e1 s1 hin1, e1 s2 hin2]
      have hsub : ∀ r : RunRec,
          (((s1.jobs.filter fun j =>
            j.host_id == h && job_id.contains j.job_id).map
              fun j => j.job_id).contains r.job_id
            && r.state == RUNNING && r.pid.isSome) = true →
          ((hostJobIds h s1).contains r.job_id) = true := by
        intro r hr
        rw [Bool.and_eq_true, Bool.and_eq_true] at hr
        have hmem : r.job_id ∈ ((s1.jobs.filter fun j =>
            j.host_id == h && job_id.contains j.job_id).map fun j => j.job_id) := by
          simpa using hr.1.1
        exact contains_hostJobIds_of_filter h s1
          (fun j => j.host_id == h && job_id.contains j.job_id) hp r.job_id hmem
      have hsub2 : ∀ r : RunRec,
          (((s1.jobs.filter fun j =>
            j.host_id == h && job_id.contains j.job_id).map
              fun j => j.job_id).contains r.job_id
            && r.state == RUNNING && r.pid.isSome) = true →
          ((hostJobIds h s2).contains r.job_id) = true := by
        intro r hr
        have := hsub r hr
        unfold hostJobIds at this ⊢
        rw [← hag.1]
        exact this
      rw [filter_eq_filter_filter _ _ hsub s1.runs,
        filter_eq_filter_filter _ _ hsub2 s2.runs]
      show (hostRuns h s1).filter _ = (hostRuns h s2).filter _
      rw [hag.2]
    simp only [kill_select]
    rw [← hm, hruns]
  · -- purge
    intro job_id _all since untl
    have hmatch : purge_matching h job_id since untl s1
        = purge_matching h job_id since untl s2 := by
      unfold purge_matching
      rw [show s1.jobs.filter (fun j => j.host_id == h) = hostJobs h s1 from rfl,
        show s2.jobs.filter (fun j => j.host_id == h) = hostJobs h s2 from rfl,
        hag.1]
    unfold purge purge_query
    rw [hmatch]

/-- Witness for C3's amended theorem: a store holding only this host's
job and run, and the same store extended with a foreign job and run,
agree on the host and `ls` coincides on them. -/
theorem host_scoping_noninterference_witness :
    ls "aaaaaaaaaaaa" true true ⟨[⟨"11111111", "aaaaaaaaaaaa", 1, some 3⟩],
        [⟨"11111111", 0, 1, some 77, false⟩]⟩
      = ls "aaaaaaaaaaaa" true true
          ⟨[⟨"11111111", "aaaaaaaaaaaa", 1, some 3⟩,
             ⟨"22222222", "bbbbbbbbbbbb", 2, some 9⟩],
            [⟨"11111111", 0, 1, some 77, false⟩,
             ⟨"22222222", 0, 2, some 88, false⟩]⟩ :=
  (host_scoping_noninterference "aaaaaaaaaaaa"
    ⟨[⟨"11111111", "aaaaaaaaaaaa", 1, some 3⟩],
      [⟨"11111111", 0, 1, some 77, false⟩]⟩
    ⟨[⟨"11111111", "aaaaaaaaaaaa", 1, some 3⟩,
       ⟨"22222222", "bbbbbbbbbbbb", 2, some 9⟩],
      [⟨"11111111", 0, 1, some 77, false⟩,
       ⟨"22222222", 0, 2, some 88, false⟩]⟩
    (by decide)).1 true true

theorem purge_matching_subset (h : String) (job_id : List String)
    (since untl : Option Int) (s : Store) :
    ∀ j ∈ purge_matching h job_id since untl s, j ∈ s.jobs := by
  intro j hj
  unfold purge_matching at hj
  rcases untl with _ | tu <;> rcases since with _ | ts <;>
      cases hje : job_id.isEmpty <;> simp only [hje] at hj <;> simp at hj <;>
    tauto

/-- C9: purge raises a usage error iff neither or both of the id list and
the all flag are supplied; otherwise every purged id names a matching job
in state Complete, only matching Complete jobs are ever deleted from the
store, and every matching job not yet Complete survives untouched and
appears in the skipped set. -/
theorem purge_spec (h : String) (job_id : List String)
    (_all metadata : Bool) (since untl : Option Int) (s : Store) :
    (purge h job_id _all since untl s = Except.error UsageError.mk
      ↔ (!job_id.isEmpty) = _all)
    ∧ (∀ jid ∈ (purge_query h job_id since untl s).purged_job_ids,
        ∃ j ∈ purge_matching h job_id since untl s,
          j.job_id = jid ∧ j.state = COMPLETE)
    ∧ (∀ j ∈ s.jobs,
        j ∉ purge_jobs_after h job_id since untl metadata s →
        j ∈ purge_matching h job_id since untl s ∧ j.state = COMPLETE)
    ∧ (∀ j ∈ purge_matching h job_id since untl s, j.state ≠ COMPLETE →
        j ∈ purge_jobs_after h job_id since untl metadata s
        ∧ j.job_id ∈ (purge_query h job_id since untl s).skipped_job_ids) := by
  refine ⟨?_, ?_, ?_, ?_⟩
  · by_cases hc : (!job_id.isEmpty) = _all
    · simp [purge, hc]
    · simp [purge, hc]
  · intro jid hjid
    simp only [purge_query] at hjid
    rcases List.mem_map.mp hjid with ⟨j, hjf, rfl⟩
    rcases List.mem_filter.mp hjf with ⟨hjm, hnr⟩
    refine ⟨j, hjm, rfl, ?_⟩
    by_contra hst
    have hjr : j ∈ (purge_matching h job_id since untl s).filter
        fun j => !(j.state == COMPLETE) :=
      List.mem_filter.mpr ⟨hjm, by simp [hst]⟩
    have hmm : j.job_id ∈ ((purge_matching h job_id since untl s).filter
        fun j => !(j.state == COMPLETE)).map fun j => j.job_id :=
      List.mem_map.mpr ⟨j, hjr, rfl⟩
    have hcontra : (((purge_matching h job_id since untl s).filter
        fun j => !(j.state == COMPLETE)).map
          fun j => j.job_id).contains j.job_id = true := by
      simpa using hmm
    rw [Bool.not_eq_true', hcontra] at hnr
    simp at hnr
  · intro j hjs hnot
    cases hmd : metadata with
    | false =>
      exfalso
      apply hnot
      simp only [purge_jobs_after, hmd, Bool.false_eq_true, if_false]
      exact hjs
    | true =>
      rw [hmd] at hnot
      have hpred : (!((purge_matching h job_id since untl s).contains j
          && !(((purge_matching h job_id since untl s).filter
            fun j => !(j.state == COMPLETE)).map
              fun j => j.job_id).contains j.job_id)) = false := by
        by_contra hp
        have hp' : (!((purge_matching h job_id since untl s).contains j
            && !(((purge_matching h job_id since untl s).filter
              fun j => !(j.state == COMPLETE)).map
                fun j => j.job_id).contains j.job_id)) = true := by
          cases hval : (!((purge_matching h job_id since untl s).contains j
              && !(((purge_matching h job_id since untl s).filter
                fun j => !(j.state == COMPLETE)).map
                  fun j => j.job_id).contains j.job_id)) with
          | true => rfl
          | false => exact absurd hval hp
        exact hnot (List.mem_filter.mpr ⟨hjs, hp'⟩)
      simp only [Bool.not_eq_false', Bool.and_eq_true, Bool.not_eq_true'] at hpred
      have hjm : j ∈ purge_matching h job_id since untl s := by
        simpa using hpred.1
      refine ⟨hjm, ?_⟩
      by_contra hst
      have hmm : j.job_id ∈ ((purge_matching h job_id since untl s).filter
          fun j => !(j.state == COMPLETE)).map fun j => j.job_id :=
        List.mem_map.mpr ⟨j, List.mem_filter.mpr ⟨hjm, by simp [hst]⟩, rfl⟩
      have hcontra2 : (((purge_matching h job_id since untl s).filter
          fun j => !(j.state == COMPLETE)).map
            fun j => j.job_id).contains j.job_id = true := by
        simpa using hmm
      have h2 := hpred.2
      rw [hcontra2] at h2
      simp at h2
  · intro j hjm hst
    have hrun : j.job_id ∈ ((purge_matching h job_id since untl s).filter
        fun j => !(j.state == COMPLETE)).map fun j => j.job_id :=
      List.mem_map.mpr ⟨j, List.mem_filter.mpr ⟨hjm, by simp [hst]⟩, rfl⟩
    constructor
    · cases hmd : metadata with
      | false =>
        simp only [purge_jobs_after, Bool.false_eq_true, if_false]
        exact purge_matching_subset h job_id since untl s j hjm
      | true =>
        simp only [purge_jobs_after, if_true]
        refine List.mem_filter.mpr
          ⟨purge_matching_subset h job_id since untl s j hjm, ?_⟩
        have hcon : (((purge_matching h job_id since untl s).filter
            fun j => !(j.state == COMPLETE)).map
              fun j => j.job_id).contains j.job_id = true := by
          simpa using hrun
        show (!((purge_matching h job_id since untl s).contains j
            && !(((purge_matching h job_id since untl s).filter
              fun j => !(j.state == COMPLETE)).map
                fun j => j.job_id).contains j.job_id)) = true
        rw [hcon]
        simp
    · simp only [purge_query]
      exact hrun

/-- Witness for C9: a store with one Complete and one Running job of this
host; purge on both ids deletes only the Complete one, skips the Running
one, and the purged id names a Complete matching job. -/
theorem purge_spec_witness :
    (purge "feedfacef00d" ["aaaaaaaa", "bbbbbbbb"] false none none
        ⟨[⟨"aaaaaaaa", "feedfacef00d", 2, some 1⟩,
           ⟨"bbbbbbbb", "feedfacef00d", 1, some 2⟩], []⟩
      = Except.ok ⟨[], ["aaaaaaaa"], ["bbbbbbbb"]⟩)
    ∧ ∃ j ∈ purge_matching "feedfacef00d" ["aaaaaaaa", "bbbbbbbb"] none none
        ⟨[⟨"aaaaaaaa", "feedfacef00d", 2, some 1⟩,
           ⟨"bbbbbbbb", "feedfacef00d", 1, some 2⟩], []⟩,
        j.job_id = "aaaaaaaa" ∧ j.state = COMPLETE :=
  ⟨rfl,
    (purge_spec "feedfacef00d" ["aaaaaaaa", "bbbbbbbb"] false true none none
      ⟨[⟨"aaaaaaaa", "feedfacef00d", 2, some 1⟩,
         ⟨"bbbbbbbb", "feedfacef00d", 1, some 2⟩], []⟩).2.1
      "aaaaaaaa" (by decide)⟩

theorem jobStateWrites_append (l1 l2 : List StoreEv) :
    jobStateWrites (l1 ++ l2) = jobStateWrites l1 ++ jobStateWrites l2 :=
  List.filterMap_append l1 l2 _

theorem jobStateWrites_attemptEvents (i : Nat) (e : Int) (k : Bool) :
    jobStateWrites (attemptEvents i e k) = [RUNNING, COMPLETE] := by
  cases k <;> rfl

theorem chain_run_job_loop (codes : List Int) (exits : Nat → Int)
    (kx : Nat → Bool) :
    ∀ (fuel attempt : Nat) (prev : Option MemRun),
      List.Chain JobTransOk COMPLETE
        (jobStateWrites (run_job_loop codes exits kx fuel attempt prev)) := by
  intro fuel
  induction fuel with
  | zero =>
    intro attempt prev
    exact List.Chain.nil
  | succ fuel ih =>
    intro attempt prev
    rw [run_job_loop]
    by_cases hb : shouldBail codes attempt prev = true
    · rw [if_pos hb]
      show List.Chain JobTransOk COMPLETE [COMPLETE]
      exact List.Chain.cons (Or.inr (Or.inr (Or.inr ⟨rfl, rfl⟩))) List.Chain.nil
    · rw [if_neg hb, jobStateWrites_append, jobStateWrites_attemptEvents]
      exact List.Chain.cons (Or.inr (Or.inr (Or.inl ⟨rfl, rfl⟩)))
        (List.Chain.cons (Or.inr (Or.inl ⟨rfl, rfl⟩)) (ih _ _))

theorem run_job_single (retry_attempts : Option Nat) (codes : List Int)
    (exits : Nat → Int) (kx : Nat → Bool) (hr : retry_attempts.getD 0 = 0) :
    jobStateWrites (run_job retry_attempts codes exits kx)
      = [SUBMITTED, RUNNING, COMPLETE] := by
  have h1 : run_job retry_attempts codes exits kx
      = .jobWrite SUBMITTED :: (attemptEvents 0 (exits 0) (kx 0) ++ []) := by
    unfold run_job
    rw [hr]
    rfl
  rw [h1]
  show SUBMITTED :: jobStateWrites (attemptEvents 0 (exits 0) (kx 0) ++ []) = _
  rw [List.append_nil, jobStateWrites_attemptEvents]

theorem runStateWrites_append (i : Nat) (l1 l2 : List StoreEv) :
    runStateWrites i (l1 ++ l2)
      = runStateWrites i l1 ++ runStateWrites i l2 :=
  List.filterMap_append l1 l2 _

theorem runStateWrites_attemptEvents_self (i : Nat) (e : Int) (k : Bool) :
    runStateWrites i (attemptEvents i e k)
      = if k then [SUBMITTED, RUNNING, RUNNING, COMPLETE]
        else [SUBMITTED, RUNNING, COMPLETE] := by
  cases k <;> simp [attemptEvents, runStateWrites]

theorem runStateWrites_attemptEvents_ne (i j : Nat) (e : Int) (k : Bool)
    (hne : j ≠ i) : runStateWrites i (attemptEvents j e k) = [] := by
  cases k <;> simp [attemptEvents, runStateWrites, hne]

theorem runStateWrites_loop_high (codes : List Int) (exits : Nat → Int)
    (kx : Nat → Bool) :
    ∀ (fuel j : Nat) (prev : Option MemRun) (i : Nat), i < j →
      runStateWrites i (run_job_loop codes exits kx fuel j prev) = [] := by
  intro fuel
  induction fuel with
  | zero => intro j prev i _; rfl
  | succ fuel ih =>
    intro j prev i hij
    rw [run_job_loop]
    by_cases hb : shouldBail codes j prev = true
    · rw [if_pos hb]
      rfl
    · rw [if_neg hb, runStateWrites_append,
        runStateWrites_attemptEvents_ne i j _ _ (Nat.ne_of_gt hij),
        ih (j + 1) _ i (Nat.lt_succ_of_lt hij)]
      rfl

theorem runStateWrites_loop_sorted (codes : List Int) (exits : Nat → Int)
    (kx : Nat → Bool) :
    ∀ (fuel j : Nat) (prev : Option MemRun) (i : Nat),
      (runStateWrites i (run_job_loop codes exits kx fuel j prev)).Sorted
        (· ≤ ·) := by
  intro fuel
  induction fuel with
  | zero =>
    intro j prev i
    exact List.sorted_nil
  | succ fuel ih =>
    intro j prev i
    rw [run_job_loop]
    by_cases hb : shouldBail codes j prev = true
    · rw [if_pos hb]
      show List.Sorted (· ≤ ·) ([] : List Nat)
      exact List.sorted_nil
    · rw [if_neg hb, runStateWrites_append]
      by_cases hji : j = i
      · subst hji
        rw [runStateWrites_loop_high codes exits kx fuel (j + 1) _ j
          (Nat.lt_succ_self j), List.append_nil,
          runStateWrites_attemptEvents_self]
        cases kx j <;> simp <;> decide
      · rw [runStateWrites_attemptEvents_ne i j _ _ hji, List.nil_append]
        exact ih _ _ i

/-- C1 counterexample: a job with one retry whose first attempt fails
persists the job-state sequence Submitted, Running, Complete, Running,
Complete — `run_run` marks the job Complete after every attempt and
Running again when the retry starts, so the persisted state is not
monotone over the whole execution. -/
theorem job_state_write_regression :
    jobStateWrites (run_job (some 1) [0] (fun _ => 1) (fun _ => false))
      = [SUBMITTED, RUNNING, COMPLETE, RUNNING, COMPLETE]
    ∧ ¬ (jobStateWrites
        (run_job (some 1) [0] (fun _ => 1) (fun _ => false))).Sorted (· ≤ ·)
    ∧ (jobStateWrites
        (run_job (some 1) [0] (fun _ => 1) (fun _ => false))).get? 2
      = some COMPLETE
    ∧ (jobStateWrites
        (run_job (some 1) [0] (fun _ => 1) (fun _ => false))).get? 3
      = some RUNNING := by
  refine ⟨rfl, ?_, rfl, rfl⟩
  rw [show jobStateWrites (run_job (some 1) [0] (fun _ => 1) (fun _ => false))
    = [SUBMITTED, RUNNING, COMPLETE, RUNNING, COMPLETE] from rfl]
  intro hs
  simp [List.Sorted, List.pairwise_cons, SUBMITTED, RUNNING, COMPLETE] at hs

/-- C1 amended: the persisted job states follow Submitted, then Running,
Complete repeated once per attempt (with a final duplicate Complete on
the bail path): the only backward write is Complete → Running when a
retry attempt starts, Submitted is never re-written, and with
`retry_attempts` 0 (or unset) the job-state sequence is exactly
Submitted, Running, Complete; every individual Run's persisted state
sequence is monotone. -/
theorem supervisor_state_writes (retry_attempts : Option Nat)
    (codes : List Int) (exits : Nat → Int) (extKill : Nat → Bool) :
    List.Chain' JobTransOk
      (jobStateWrites (run_job retry_attempts codes exits extKill))
    ∧ (jobStateWrites (run_job retry_attempts codes exits extKill)).head?
      = some SUBMITTED
    ∧ (retry_attempts.getD 0 = 0 →
        jobStateWrites (run_job retry_attempts codes exits extKill)
          = [SUBMITTED, RUNNING, COMPLETE])
    ∧ ∀ i, (runStateWrites i
        (run_job retry_attempts codes exits extKill)).Sorted (· ≤ ·) := by
  refine ⟨?_, ?_, run_job_single retry_attempts codes exits extKill, ?_⟩
  · show List.Chain JobTransOk SUBMITTED
      (jobStateWrites (run_job_loop codes exits extKill
        (retry_attempts.getD 0 + 1) 0 none))
    rw [run_job_loop]
    have hb0 : shouldBail codes 0 none = false := by simp [shouldBail]
    rw [hb0]
    simp only [Bool.false_eq_true, if_false]
    rw [jobStateWrites_append, jobStateWrites_attemptEvents]
    exact List.Chain.cons (Or.inl ⟨rfl, rfl⟩)
      (List.Chain.cons (Or.inr (Or.inl ⟨rfl, rfl⟩))
        (chain_run_job_loop codes exits extKill _ _ _))
  · rfl
  · intro i
    show (runStateWrites i (run_job_loop codes exits extKill
        (retry_attempts.getD 0 + 1) 0 none)).Sorted (· ≤ ·)
    exact runStateWrites_loop_sorted codes exits extKill _ 0 none i

/-- Witness for C1's amended theorem: with no retries configured the
job-state writes are exactly Submitted, Running, Complete. -/
theorem supervisor_state_writes_witness :
    Option.getD (none : Option Nat) 0 = 0
    ∧ jobStateWrites (run_job none [0] (fun _ => 0) (fun _ => false))
      = [SUBMITTED, RUNNING, COMPLETE] :=
  ⟨rfl, (supervisor_state_writes none [0] (fun _ => 0)
    (fun _ => false)).2.2.1 rfl⟩

/-- C2: evaluation at the failing input.  With `retry_attempts=1`,
`success_codes=[0]`, the child exiting 130 and an external `jobman kill`
persisting `killed=True` on run 0 while it is Running, the trace shows:
the kill's write (`runWrite 0 RUNNING killed=true`), then `run_run`'s
terminal save rewriting `killed=false` (the supervisor's in-memory
object), then a second Run being created — contradicting the claim (and
kill.py's own comment that marking runs killed stops them being
restarted).  The run count and consecutive numbering parts of the claim
hold (`runCreates = [0, 1]`, two runs for retry_attempts = 1). -/
theorem killed_flag_not_observed_by_loop :
    run_job (some 1) [0] (fun _ => 130) (fun a => a == 0)
      = killedScenarioTrace
    ∧ StoreEv.runWrite 0 RUNNING true none ∈ killedScenarioTrace
    ∧ StoreEv.runCreate 1 ∈ killedScenarioTrace
    ∧ killedScenarioTrace.indexOf (StoreEv.runWrite 0 RUNNING true none)
        < killedScenarioTrace.indexOf (StoreEv.runCreate 1)
    ∧ killedScenarioTrace.indexOf (StoreEv.runWrite 0 RUNNING true none)
        < killedScenarioTrace.indexOf
            (StoreEv.runWrite 0 COMPLETE false (some 130))
    ∧ runCreates killedScenarioTrace = [0, 1] := by
  refine ⟨rfl, by decide, by decide, by decide, by decide, rfl⟩

end Jobman
